import Mathlib

/-!
Shallow embedding of the client-side video annotation engine of the
SequenceVideo repository (the VideoPlayer component in
src/components/PlayerSelector.tsx and the chat-interface annotation
handlers), together with proofs about its undo/redo history stack, its
pointer-event state machine, its annotation lifecycle and its seek logic.

Numbers that the source manipulates as JavaScript doubles (coordinates,
times, durations) are modelled as rationals; the real-valued
trigonometry of the angle tool is modelled over the reals.
-/

/-- A 2D point in display-pixel coordinates (types.ts, interface Point). -/
structure Point where
  x : ℚ
  y : ℚ
deriving DecidableEq

/-- The drawing tool kinds (types.ts, type DrawingTool). -/
inductive DrawingTool where
  | pen
  | line
  | arrow
  | circle
  | angle
  | eraser
deriving DecidableEq

/-- One shape (types.ts, interface Drawing).  The source's optional `end`
field is called `endP` here because `end` is a Lean keyword.  The source
stores the angle label as the string `angleDeg.toFixed(1) + degree-sign`;
we model the label by its numeric value, the degree measure rounded to
one decimal place, so `text` is an optional rational. -/
structure Drawing where
  id : String
  tool : DrawingTool
  points : List Point
  start : Option Point := none
  endP : Option Point := none
  color : String
  timestamp : ℚ
  text : Option ℚ := none
deriving DecidableEq

/-- A time-scoped bundle of drawings (types.ts, interface Annotation).
The source's `drawings` field is optional; an absent field behaves as the
empty list everywhere the engine reads it, so it is modelled as a list. -/
structure Annotation where
  id : String
  timestamp : ℚ
  startTime : Option ℚ := none
  endTime : Option ℚ := none
  drawings : List Drawing := []
deriving DecidableEq

/-- The slice of a chat message the annotation handlers read and write
(types.ts, interface Message): its id and `metadata.annotations`, which
is optional in the source (`message.metadata?.annotations || []`). -/
structure Message where
  id : String
  annotations : Option (List Annotation) := none
deriving DecidableEq

/-- The VideoPlayer component state that the annotation engine reads and
writes, gathered from its useState hooks.  UI-only state (fullscreen,
dropdowns, the text mirror `annotationDurationInput`, canvas size, the
loading flags) is omitted; `historyIndex` is a JavaScript number that
takes the value -1 outside annotation mode, so it is modelled as an
integer. -/
structure AnnotatorState where
  isAnnotating : Bool
  activeTool : DrawingTool
  selectedColor : String
  currentDrawings : List Drawing
  drawingHistory : List (List Drawing)
  historyIndex : ℤ
  annotationDuration : Option ℚ
  isDrawing : Bool
  startPoint : Option Point
  currentPoint : Option Point
  anglePoints : List Point
  currentTime : ℚ
  duration : ℚ
deriving DecidableEq

/-- JavaScript `array.slice(0, e)`: a negative end index counts from the
end of the array, and the result is the prefix up to the (clamped)
resolved index. -/
def jsSliceTo (l : List α) (e : ℤ) : List α :=
  if e < 0 then l.take (l.length + e).toNat else l.take e.toNat

/-- `saveToHistory` (PlayerSelector.tsx): truncate the history to the
entries up to and including `historyIndex`, append a copy of the given
drawing list, and advance the index by one.  The source does not touch
`currentDrawings` here; callers update it separately. -/
def saveToHistory (drawings : List Drawing) (s : AnnotatorState) : AnnotatorState :=
  { s with
    drawingHistory := jsSliceTo s.drawingHistory (s.historyIndex + 1) ++ [drawings]
    historyIndex := s.historyIndex + 1 }

/-- `handleUndo` (PlayerSelector.tsx): when the index is positive,
decrement it and load a copy of the snapshot at the new index. -/
def handleUndo (s : AnnotatorState) : AnnotatorState :=
  if 0 < s.historyIndex then
    { s with
      historyIndex := s.historyIndex - 1
      currentDrawings := s.drawingHistory.getD (s.historyIndex - 1).toNat [] }
  else s

/-- `handleRedo` (PlayerSelector.tsx): when the index is before the last
entry, increment it and load a copy of the snapshot at the new index. -/
def handleRedo (s : AnnotatorState) : AnnotatorState :=
  if s.historyIndex < (s.drawingHistory.length : ℤ) - 1 then
    { s with
      historyIndex := s.historyIndex + 1
      currentDrawings := s.drawingHistory.getD (s.historyIndex + 1).toNat [] }
  else s

/-- `handleClear` (PlayerSelector.tsx): drop all current drawings and any
in-progress angle points, and commit the empty drawing set to history. -/
def handleClear (s : AnnotatorState) : AnnotatorState :=
  saveToHistory [] { s with currentDrawings := [], anglePoints := [] }

/-- `enterAnnotationMode` (PlayerSelector.tsx), restricted to the
modelled state: switch annotation mode on, set the default display
duration to `Math.floor(duration)` with a fallback of 10 seconds when the
duration is not loaded yet (falsy), and initialize the history with a
single empty snapshot at index 0.  Pausing the video and the fullscreen
request are UI effects outside the model. -/
def enterAnnotationMode (s : AnnotatorState) : AnnotatorState :=
  { s with
    isAnnotating := true
    annotationDuration := some (if s.duration = 0 then 10 else (⌊s.duration⌋ : ℚ))
    drawingHistory := [[]]
    historyIndex := 0 }

/-- The squared Euclidean distance between two points.  The source
compares `Math.hypot(dx, dy)` against thresholds; we compare the squared
distance against the squared threshold, which is equivalent. -/
def distSq (p q : Point) : ℚ :=
  (p.x - q.x) ^ 2 + (p.y - q.y) ^ 2

example : distSq ⟨0, 0⟩ ⟨1, 0⟩ = 1 := by norm_num [distSq]
example : jsSliceTo [1, 2, 3] 2 = [1, 2] := by decide

/-- `handlePointerMove` (PlayerSelector.tsx): always record the live
current point; with the angle tool the handler only re-renders; while a
freehand pen stroke is active, append the moved-to point to the last
drawing if that drawing is a pen stroke and the point is at distance ≥ 2
pixels from its last recorded point (the source drops the point when
`Math.hypot(dx, dy) < 2`).  When the pen drawing's point list were empty
the source would compare against `undefined`, producing `NaN < 2 = false`
and appending; that case is modelled by the `none` branch (it is
unreachable, since pen strokes start with one point). -/
def handlePointerMove (p : Point) (s : AnnotatorState) : AnnotatorState :=
  if s.isAnnotating = false then s else
  let s1 := { s with currentPoint := some p }
  if s1.activeTool = DrawingTool.angle then s1
  else if s1.isDrawing = false then s1
  else if s1.activeTool = DrawingTool.pen then
    { s1 with
      currentDrawings :=
        match s1.currentDrawings.getLast? with
        | none => s1.currentDrawings
        | some last =>
          if last.tool ≠ DrawingTool.pen then s1.currentDrawings
          else
            match last.points.getLast? with
            | some lastPoint =>
              if distSq lastPoint p < 4 then s1.currentDrawings
              else s1.currentDrawings.dropLast ++
                [{ last with points := last.points ++ [p] }]
            | none => s1.currentDrawings.dropLast ++
                [{ last with points := last.points ++ [p] }] }
  else s1

/-- `handlePointerUp` (PlayerSelector.tsx): ignore the event outside
annotation mode, with the angle tool, or when no stroke/drag is active.
A finished pen stroke is committed to history only when the active pen
drawing has more than one point; with a shape tool the recorded start
point and current point become a new Drawing which is appended and
committed.  `id` values come from `Date.now().toString()` in the source
and are passed in here.  Finally the interaction state is reset. -/
def handlePointerUp (newId : String) (s : AnnotatorState) : AnnotatorState :=
  if s.isAnnotating = false then s
  else if s.activeTool = DrawingTool.angle then s
  else if s.isDrawing = false then s
  else
    let s1 :=
      if s.activeTool = DrawingTool.pen then
        match s.currentDrawings.getLast? with
        | some last =>
          if last.tool = DrawingTool.pen ∧ 1 < last.points.length then
            saveToHistory s.currentDrawings s
          else s
        | none => s
      else
        match s.startPoint, s.currentPoint with
        | some sp, some cp =>
          let newShape : Drawing :=
            { id := newId, tool := s.activeTool, start := some sp,
              endP := some cp, color := s.selectedColor, points := [],
              timestamp := s.currentTime }
          { saveToHistory (s.currentDrawings ++ [newShape]) s with
            currentDrawings := s.currentDrawings ++ [newShape] }
        | _, _ => s
    { s1 with isDrawing := false, startPoint := none, currentPoint := none }

/-- JavaScript `Math.atan2(y, x)`: the argument of the complex number
`x + y*i`, in `(-pi, pi]`. -/
noncomputable def atan2 (y x : ℝ) : ℝ :=
  Complex.arg ⟨x, y⟩

/-- The angle-difference normalization loops of `handlePointerDown`
(PlayerSelector.tsx): `while (diff <= -PI) diff += 2*PI` followed by
`while (diff > PI) diff -= 2*PI`.  The input is a difference of two
`Math.atan2` values, so it lies in `(-2*pi, 2*pi)` and each loop runs at
most once; a single conditional step is therefore equivalent. -/
noncomputable def normalizeDiff (d : ℝ) : ℝ :=
  if d ≤ -Real.pi then d + 2 * Real.pi
  else if Real.pi < d then d - 2 * Real.pi
  else d

/-- The normalized signed angle (radians) between the arms `vertex → p1`
and `vertex → p2`, exactly as `handlePointerDown` computes it:
`a1 = atan2(p1.y - vertex.y, p1.x - vertex.x)`, likewise `a2`, and the
normalized `a2 - a1`. -/
noncomputable def signedDiff (p1 vertex p2 : Point) : ℝ :=
  normalizeDiff
    (atan2 ((p2.y : ℝ) - (vertex.y : ℝ)) ((p2.x : ℝ) - (vertex.x : ℝ)) -
     atan2 ((p1.y : ℝ) - (vertex.y : ℝ)) ((p1.x : ℝ) - (vertex.x : ℝ)))

/-- The reported angle in degrees: `Math.abs(diff * 180 / Math.PI)`. -/
noncomputable def angleDeg (p1 vertex p2 : Point) : ℝ :=
  |signedDiff p1 vertex p2 * 180 / Real.pi|

/-- JavaScript `x.toFixed(1)` for the nonnegative values produced by the
angle tool, as the displayed numeric value: round half away from zero to
one decimal place. -/
noncomputable def toFixed1 (x : ℝ) : ℚ :=
  (⌊x * 10 + 1 / 2⌋ : ℤ) / 10

/-- The numeric value of the angle Drawing's `text` label:
`angleDeg.toFixed(1)` (the source then appends a degree sign). -/
noncomputable def angleLabel (p1 vertex p2 : Point) : ℚ :=
  toFixed1 (angleDeg p1 vertex p2)

/-- `handlePointerDown` (PlayerSelector.tsx): ignored outside annotation
mode.  With the angle tool the clicked point is appended to the
accumulating list; on the third point the labelled angle Drawing is
appended to the current drawings, committed to history, and the
accumulator is reset.  Otherwise a stroke/drag starts at the clicked
point, and the pen tool additionally opens a new one-point pen
drawing. -/
noncomputable def handlePointerDown (newId : String) (p : Point)
    (s : AnnotatorState) : AnnotatorState :=
  if s.isAnnotating = false then s
  else if s.activeTool = DrawingTool.angle then
    let newPoints := s.anglePoints ++ [p]
    if newPoints.length = 3 then
      let p1 := newPoints.getD 0 ⟨0, 0⟩
      let vertex := newPoints.getD 1 ⟨0, 0⟩
      let p2 := newPoints.getD 2 ⟨0, 0⟩
      let newAngle : Drawing :=
        { id := newId, tool := DrawingTool.angle, color := s.selectedColor,
          points := newPoints, timestamp := s.currentTime,
          text := some (angleLabel p1 vertex p2) }
      let updated := s.currentDrawings ++ [newAngle]
      { saveToHistory updated s with
        currentDrawings := updated, anglePoints := [] }
    else { s with anglePoints := newPoints }
  else
    let s1 := { s with
      isDrawing := true
      startPoint := some p
      currentPoint := some p }
    if s.activeTool = DrawingTool.pen then
      { s1 with
        currentDrawings := s1.currentDrawings ++
          [{ id := newId, tool := DrawingTool.pen, points := [p],
             color := s.selectedColor, timestamp := s.currentTime }] }
    else s1

/-- JavaScript `a || b` for numbers: `b` when `a` is falsy (zero). -/
def jsOrQ (a b : ℚ) : ℚ :=
  if a = 0 then b else a

/-- JavaScript `a || b` where `a` is a nullable number: `b` when `a` is
null or zero. -/
def jsOrOptQ (a : Option ℚ) (b : ℚ) : ℚ :=
  match a with
  | some x => jsOrQ x b
  | none => b

/-- `saveAnnotation` (PlayerSelector.tsx): the produced annotation.  Its
start time and timestamp are the current playback time, the display
duration is `annotationDuration || Math.floor(duration) || 10`, and the
end time is `Math.min(currentTime + displayDuration, duration || Infinity)`
— when the duration is still falsy the minimum with infinity is the sum
itself.  The source id comes from `Date.now().toString()`. -/
def saveAnnotation (newId : String) (s : AnnotatorState) : Annotation :=
  let startTime := s.currentTime
  let displayDuration := jsOrQ (jsOrOptQ s.annotationDuration (⌊s.duration⌋ : ℚ)) 10
  let endTime :=
    if s.duration = 0 then s.currentTime + displayDuration
    else min (s.currentTime + displayDuration) s.duration
  { id := newId, timestamp := s.currentTime, startTime := some startTime,
    endTime := some endTime, drawings := s.currentDrawings }

/-- Whether one annotation is active at the given playback time, as in
the `activeAnnotations` filter (PlayerSelector.tsx):
`startTime = a.startTime ?? a.timestamp`,
`endTime = a.endTime ?? (duration || Infinity)`, and the annotation is
active when `startTime <= currentTime <= endTime`; the `none` branch with
a falsy duration is the comparison against infinity, which always
holds. -/
def isActiveAt (a : Annotation) (duration currentTime : ℚ) : Bool :=
  let startTime := a.startTime.getD a.timestamp
  match a.endTime with
  | some e => decide (startTime ≤ currentTime) && decide (currentTime ≤ e)
  | none =>
    if duration = 0 then decide (startTime ≤ currentTime)
    else decide (startTime ≤ currentTime) && decide (currentTime ≤ duration)

/-- `activeAnnotations` (PlayerSelector.tsx): the annotations displayed
during playback — when annotations are shown, those whose time range
contains the current time. -/
def activeAnnotations (showAnnotations : Bool) (anns : List Annotation)
    (duration currentTime : ℚ) : List Annotation :=
  if showAnnotations then anns.filter (fun a => isActiveAt a duration currentTime)
  else []

/-- The seek core of `updateVideoTime` (PlayerSelector.tsx), as the new
playback position given the resolved video duration, the current
position, the requested time and the `force`/dragging flags.  The source
returns without touching the position when the duration is falsy or the
requested time falls outside `[0, duration]`; inside that range it
clamps (a no-op there) and assigns, except that a non-forced, non-drag
update within 0.001 seconds of the current position is skipped. -/
def updateVideoTime (videoDuration pos time : ℚ) (force isDragging : Bool) : ℚ :=
  if videoDuration = 0 then pos
  else if 0 ≤ time ∧ time ≤ videoDuration then
    let clampedTime := max 0 (min time videoDuration)
    if force || isDragging then clampedTime
    else if 1 / 1000 < |pos - clampedTime| then clampedTime
    else pos
  else pos

/-- `handleAddAnnotation` (ChatInterface): find the message; when it
exists, append the annotation to `metadata?.annotations || []` and sort
by timestamp (`.sort((a, b) => a.timestamp - b.timestamp)`, a stable
ascending sort).  The result is the updated annotation array handed to
`onUpdateMessage`, or `none` when no update is issued. -/
def handleAddAnnotation (msgs : List Message) (messageId : String)
    (a : Annotation) : Option (List Annotation) :=
  match msgs.find? (fun m => m.id = messageId) with
  | none => none
  | some m =>
    some ((m.annotations.getD [] ++ [a]).mergeSort
      (fun x y => decide (x.timestamp ≤ y.timestamp)))

/-- `handleDeleteAnnotation` (ChatInterface): find the message; when it
exists, filter out the annotation with the matching id.  The result is
the updated annotation array handed to `onUpdateMessage`, or `none` when
no update is issued. -/
def handleDeleteAnnotation (msgs : List Message) (messageId : String)
    (annotationId : String) : Option (List Annotation) :=
  match msgs.find? (fun m => m.id = messageId) with
  | none => none
  | some m =>
    some ((m.annotations.getD []).filter (fun ann => ann.id ≠ annotationId))

/-- The VideoPlayer's initial annotator state: the useState initial
values of the modelled fields, with a 42-second loaded video at playback
position 0. -/
def baseState : AnnotatorState :=
  { isAnnotating := false
    activeTool := DrawingTool.pen
    selectedColor := "#F97316"
    currentDrawings := []
    drawingHistory := []
    historyIndex := -1
    annotationDuration := none
    isDrawing := false
    startPoint := none
    currentPoint := none
    anglePoints := []
    currentTime := 0
    duration := 42 }

/-- A concrete two-point pen stroke, used as test data. -/
def penStrokeA : Drawing :=
  { id := "d1", tool := DrawingTool.pen, points := [⟨0, 0⟩, ⟨3, 0⟩],
    color := "#F97316", timestamp := 0 }

/-- A second concrete two-point pen stroke, used as test data. -/
def penStrokeB : Drawing :=
  { id := "d2", tool := DrawingTool.pen, points := [⟨0, 0⟩, ⟨5, 0⟩],
    color := "#F97316", timestamp := 0 }

/-- A concrete annotator state with a two-snapshot history at index 1. -/
def stateH1 : AnnotatorState :=
  { baseState with drawingHistory := [[], [penStrokeA]], historyIndex := 1 }

/-- A concrete annotator state with a two-snapshot history at index 0,
i.e. just after one undo: the second snapshot is the pending redo. -/
def stateH0 : AnnotatorState :=
  { baseState with drawingHistory := [[], [penStrokeA]], historyIndex := 0 }

/-- A concrete annotation visible from second 5 to second 10. -/
def annEx : Annotation :=
  { id := "a1", timestamp := 2, startTime := some 5, endTime := some 10 }

/-- A concrete annotation with timestamp 1, used as test data. -/
def annT1 : Annotation := { id := "t1", timestamp := 1 }

/-- A concrete annotation with timestamp 3, used as test data. -/
def annT2 : Annotation := { id := "t2", timestamp := 3 }

/-- A concrete annotation with timestamp 2, used as test data. -/
def annT3 : Annotation := { id := "t3", timestamp := 2 }

/-- A concrete message carrying two annotations sorted by timestamp. -/
def msgEx : Message := { id := "m1", annotations := some [annT1, annT2] }

/-- A concrete one-point (degenerate) pen stroke. -/
def penOnePoint : Drawing :=
  { id := "p1", tool := DrawingTool.pen, points := [⟨0, 0⟩],
    color := "#F97316", timestamp := 0 }

/-- A concrete annotator state in the middle of a freehand stroke whose
only recorded point so far is (0,0). -/
def statePen0 : AnnotatorState :=
  { baseState with
    isAnnotating := true
    isDrawing := true
    drawingHistory := [[]]
    historyIndex := 0
    currentDrawings := [penOnePoint] }

/-- A concrete annotator state at the end of a freehand stroke with two
recorded points. -/
def statePenUp : AnnotatorState :=
  { baseState with
    isAnnotating := true
    isDrawing := true
    drawingHistory := [[]]
    historyIndex := 0
    currentDrawings := [penStrokeA] }

/-- A concrete annotator state at playback position 30 of the 42-second
video, with the default display duration configured. -/
def stateC4 : AnnotatorState :=
  { baseState with currentTime := 30, annotationDuration := some 42 }

/-- A concrete annotator state with the angle tool active and two
accumulated angle points: one arm to the right of the vertex (0°) and
the vertex at the origin; the third click will land on the 90° arm. -/
def stateAngle : AnnotatorState :=
  { baseState with
    isAnnotating := true
    activeTool := DrawingTool.angle
    anglePoints := [⟨10, 0⟩, ⟨0, 0⟩] }

/-- The history invariant of annotation mode: the snapshot list is
non-empty and the index points into it. -/
def histInv (s : AnnotatorState) : Prop :=
  s.drawingHistory ≠ [] ∧ 0 ≤ s.historyIndex ∧
    s.historyIndex ≤ (s.drawingHistory.length : ℤ) - 1

lemma jsSliceTo_of_nonneg (l : List α) (e : ℤ) (h : 0 ≤ e) :
    jsSliceTo l e = l.take e.toNat := by
  simp [jsSliceTo, not_lt.mpr h]

lemma saveToHistory_drawingHistory (d : List Drawing) (s : AnnotatorState)
    (h : -1 ≤ s.historyIndex) :
    (saveToHistory d s).drawingHistory
      = s.drawingHistory.take (s.historyIndex + 1).toNat ++ [d] := by
  simp [saveToHistory, jsSliceTo_of_nonneg _ _ (by omega : (0:ℤ) ≤ s.historyIndex + 1)]

lemma histInv_saveToHistory (d : List Drawing) (s : AnnotatorState)
    (h : histInv s) : histInv (saveToHistory d s) := by
  obtain ⟨hne, hge, hle⟩ := h
  refine ⟨by simp [saveToHistory], by simp [saveToHistory]; omega, ?_⟩
  rw [show (saveToHistory d s).drawingHistory
        = s.drawingHistory.take (s.historyIndex + 1).toNat ++ [d] from
      saveToHistory_drawingHistory d s (by omega)]
  simp [saveToHistory]
  omega

/-- C1: in annotation mode with `historyIndex = i > 0` (and `i` in
bounds, as the history invariant guarantees), `handleUndo` followed by
`handleRedo` restores the index to `i` and loads a drawing list
structurally equal to the snapshot `drawingHistory[i]`; and `handleUndo`
at index ≤ 0 changes nothing at all. -/
theorem undo_redo_restores (s : AnnotatorState)
    (h0 : 0 < s.historyIndex)
    (h1 : s.historyIndex < (s.drawingHistory.length : ℤ)) :
    (handleRedo (handleUndo s)).historyIndex = s.historyIndex ∧
    (handleRedo (handleUndo s)).currentDrawings
      = s.drawingHistory.getD s.historyIndex.toNat [] ∧
    ∀ t : AnnotatorState, t.historyIndex ≤ 0 → handleUndo t = t := by
  have hu : handleUndo s
      = { s with
          historyIndex := s.historyIndex - 1
          currentDrawings := s.drawingHistory.getD (s.historyIndex - 1).toNat [] } := by
    simp [handleUndo, h0]
  have hr : s.historyIndex - 1 < (s.drawingHistory.length : ℤ) - 1 := by omega
  refine ⟨?_, ?_, ?_⟩
  · rw [hu]; simp [handleRedo, hr]
  · rw [hu]; simp [handleRedo, hr]
  · intro t ht
    simp [handleUndo, not_lt.mpr ht]

/-- C1 witness: a concrete two-snapshot history at index 1; undo then
redo returns to index 1 with the second snapshot. -/
theorem undo_redo_restoresW :
    (0 : ℤ) < stateH1.historyIndex ∧
      ((handleRedo (handleUndo stateH1)).historyIndex = stateH1.historyIndex ∧
        (handleRedo (handleUndo stateH1)).currentDrawings
          = stateH1.drawingHistory.getD stateH1.historyIndex.toNat [] ∧
        ∀ t : AnnotatorState, t.historyIndex ≤ 0 → handleUndo t = t) :=
  ⟨by decide, undo_redo_restores stateH1 (by decide) (by decide)⟩

/-- C2: for a history state whose index is in range (including the
pre-commit index −1), `saveToHistory d` truncates the history to the
prefix up to the index, appends the snapshot `d`, and advances the index
by one so that it addresses the appended snapshot, which is the last
entry — no redo path survives. -/
theorem saveToHistory_truncates_and_appends (s : AnnotatorState)
    (d : List Drawing)
    (h0 : -1 ≤ s.historyIndex)
    (h1 : s.historyIndex ≤ (s.drawingHistory.length : ℤ) - 1) :
    (saveToHistory d s).drawingHistory
      = s.drawingHistory.take (s.historyIndex + 1).toNat ++ [d] ∧
    (saveToHistory d s).historyIndex = s.historyIndex + 1 ∧
    ((saveToHistory d s).drawingHistory)[(saveToHistory d s).historyIndex.toNat]?
      = some d ∧
    ((saveToHistory d s).drawingHistory.length : ℤ)
      = (saveToHistory d s).historyIndex + 1 := by
  have hd := saveToHistory_drawingHistory d s h0
  have htake : (s.drawingHistory.take (s.historyIndex + 1).toNat).length
      = (s.historyIndex + 1).toNat := by
    simp
    omega
  refine ⟨hd, by simp [saveToHistory], ?_, ?_⟩
  · have hx : (saveToHistory d s).historyIndex.toNat = (s.historyIndex + 1).toNat := by
      simp [saveToHistory]
    rw [hd, hx, List.getElem?_append_right (le_of_eq htake), htake]
    simp
  · rw [hd]
    simp [saveToHistory, htake]
    omega

/-- C2 witness: committing `[d]` at index 0 of a two-entry history drops
the second entry, appends, and leaves the index at the new last entry. -/
theorem saveToHistory_truncates_and_appendsW :
    ((-1 : ℤ) ≤ stateH0.historyIndex ∧
        stateH0.historyIndex ≤ (stateH0.drawingHistory.length : ℤ) - 1) ∧
      ((saveToHistory [penStrokeB] stateH0).drawingHistory
          = stateH0.drawingHistory.take (stateH0.historyIndex + 1).toNat
              ++ [[penStrokeB]] ∧
        (saveToHistory [penStrokeB] stateH0).historyIndex
          = stateH0.historyIndex + 1 ∧
        ((saveToHistory [penStrokeB] stateH0).drawingHistory)[(saveToHistory
            [penStrokeB] stateH0).historyIndex.toNat]?
          = some [penStrokeB] ∧
        ((saveToHistory [penStrokeB] stateH0).drawingHistory.length : ℤ)
          = (saveToHistory [penStrokeB] stateH0).historyIndex + 1) :=
  ⟨⟨by decide, by decide⟩,
    saveToHistory_truncates_and_appends stateH0 [penStrokeB]
      (by decide) (by decide)⟩

/-- C10: `enterAnnotationMode` establishes the history invariant (a
non-empty snapshot list with the index in bounds, starting as `[[]]` at
index 0), each of `saveToHistory`, `handleUndo`, `handleRedo` and
`handleClear` preserves it, and under it the snapshot lookups performed
by undo (at `historyIndex - 1` when positive) and redo (at
`historyIndex + 1` when below the last entry) are in bounds. -/
theorem history_invariant_preserved (s : AnnotatorState) (d : List Drawing)
    (h : histInv s) :
    histInv (enterAnnotationMode s) ∧
    histInv (saveToHistory d s) ∧
    histInv (handleUndo s) ∧
    histInv (handleRedo s) ∧
    histInv (handleClear s) ∧
    (0 < s.historyIndex →
      (s.historyIndex - 1).toNat < s.drawingHistory.length) ∧
    (s.historyIndex < (s.drawingHistory.length : ℤ) - 1 →
      (s.historyIndex + 1).toNat < s.drawingHistory.length) := by
  obtain ⟨hne, hge, hle⟩ := h
  refine ⟨⟨by simp [enterAnnotationMode], by simp [enterAnnotationMode],
      by simp [enterAnnotationMode]⟩,
    histInv_saveToHistory d s ⟨hne, hge, hle⟩, ?_, ?_, ?_, by omega, by omega⟩
  · by_cases hpos : 0 < s.historyIndex
    · refine ⟨by simp [handleUndo, hpos, hne], ?_, ?_⟩ <;>
        simp [handleUndo, hpos] <;> omega
    · simp [handleUndo, hpos]
      exact ⟨hne, hge, hle⟩
  · by_cases hlt : s.historyIndex < (s.drawingHistory.length : ℤ) - 1
    · refine ⟨by simp [handleRedo, hlt, hne], ?_, ?_⟩ <;>
        simp [handleRedo, hlt] <;> omega
    · simp [handleRedo, hlt]
      exact ⟨hne, hge, hle⟩
  · exact histInv_saveToHistory []
      { s with currentDrawings := [], anglePoints := [] }
      ⟨hne, hge, hle⟩

/-- C10 witness: the invariant for the freshly entered annotation mode
and the concrete operations on it. -/
theorem history_invariant_preservedW :
    histInv (enterAnnotationMode baseState) ∧
      (histInv (enterAnnotationMode (enterAnnotationMode baseState)) ∧
      histInv (saveToHistory [] (enterAnnotationMode baseState)) ∧
      histInv (handleUndo (enterAnnotationMode baseState)) ∧
      histInv (handleRedo (enterAnnotationMode baseState)) ∧
      histInv (handleClear (enterAnnotationMode baseState)) ∧
      (0 < (enterAnnotationMode baseState).historyIndex →
        ((enterAnnotationMode baseState).historyIndex - 1).toNat
          < (enterAnnotationMode baseState).drawingHistory.length) ∧
      ((enterAnnotationMode baseState).historyIndex
          < ((enterAnnotationMode baseState).drawingHistory.length : ℤ) - 1 →
        ((enterAnnotationMode baseState).historyIndex + 1).toNat
          < (enterAnnotationMode baseState).drawingHistory.length)) :=
  ⟨by constructor <;> simp [enterAnnotationMode, histInv],
    history_invariant_preserved (enterAnnotationMode baseState) []
      (by constructor <;> simp [enterAnnotationMode, histInv])⟩

/-- C3: with a loaded (positive) duration, an annotation is in the
displayed active set exactly when annotations are shown, it belongs to
the message's annotation list, and `S ≤ T ≤ E`, where `S` is its
startTime (falling back to its timestamp) and `E` is its endTime
(falling back to the video duration); in particular the endpoints are
inclusive. -/
theorem activeAnnotations_iff (showAnnotations : Bool)
    (anns : List Annotation) (duration T : ℚ) (a : Annotation)
    (hdur : 0 < duration) :
    a ∈ activeAnnotations showAnnotations anns duration T ↔
      (showAnnotations = true ∧ a ∈ anns ∧
        a.startTime.getD a.timestamp ≤ T ∧ T ≤ a.endTime.getD duration) := by
  cases showAnnotations with
  | false => simp [activeAnnotations]
  | true =>
    simp only [activeAnnotations, if_pos, List.mem_filter]
    cases hend : a.endTime with
    | some e => simp [isActiveAt, hend, and_assoc]
    | none => simp [isActiveAt, hend, hdur.ne', and_assoc]

/-- C3 witness: the annotation `[5, 10]` is active at time 7 of a
20-second video when annotations are shown. -/
theorem activeAnnotations_iffW :
    (0 : ℚ) < 20 ∧
      (annEx ∈ activeAnnotations true [annEx] 20 7 ↔
        (true = true ∧ annEx ∈ [annEx] ∧
          annEx.startTime.getD annEx.timestamp ≤ 7 ∧
          (7 : ℚ) ≤ annEx.endTime.getD 20)) :=
  ⟨by norm_num, activeAnnotations_iff true [annEx] 20 7 annEx (by norm_num)⟩

/-- C8 counterexample: the claim says an out-of-range seek sets the
position to the clamped value; but seeking to 11 seconds on a 10-second
video from position 3 leaves the position at 3, not at the clamped
value 10. -/
theorem updateVideoTime_not_clamping :
    updateVideoTime 10 3 11 false false = 3 ∧
      ¬ updateVideoTime 10 3 11 false false = max 0 (min 11 10) := by
  norm_num [updateVideoTime]

/-- C8 amended: with a loaded (non-zero) duration, a seek request
outside `[0, duration]` is ignored — the position is left unchanged and
no error is raised; an in-range request during a drag or when forced
sets the position to the requested (already-clamped) value; and in every
case the new position is either the old position or the requested
in-range value, never an unclamped out-of-range value. -/
theorem updateVideoTime_range_behavior (videoDuration pos time : ℚ)
    (force isDragging : Bool) (hdur : videoDuration ≠ 0) :
    (¬ (0 ≤ time ∧ time ≤ videoDuration) →
      updateVideoTime videoDuration pos time force isDragging = pos) ∧
    ((0 ≤ time ∧ time ≤ videoDuration) → (force || isDragging) = true →
      updateVideoTime videoDuration pos time force isDragging = time) ∧
    (updateVideoTime videoDuration pos time force isDragging = pos ∨
      updateVideoTime videoDuration pos time force isDragging = time) := by
  simp only [updateVideoTime, if_neg hdur]
  by_cases hin : 0 ≤ time ∧ time ≤ videoDuration
  · have hcl : max 0 (min time videoDuration) = time := by
      rw [min_eq_left hin.2, max_eq_right hin.1]
    simp only [if_pos hin, hcl]
    refine ⟨fun hc => absurd hin hc, fun _ hf => by simp [hf], ?_⟩
    by_cases hf : (force || isDragging) = true
    · simp [hf]
    · have hf2 : (force || isDragging) = false := by
        cases h2 : (force || isDragging) <;> simp_all
      simp only [hf2, Bool.false_eq_true, if_false]
      rcases lt_or_le ((1 : ℚ) / 1000) |pos - time| with hd2 | hd2
      · rw [if_pos hd2]; right; rfl
      · rw [if_neg (not_lt.mpr hd2)]; left; rfl
  · simp [if_neg hin, hin]

/-- C8 amended witness: the out-of-range request 11 on a 10-second video
is ignored, and the forced in-range request is honoured. -/
theorem updateVideoTime_range_behaviorW :
    (10 : ℚ) ≠ 0 ∧
      ((¬ ((0 : ℚ) ≤ 11 ∧ (11 : ℚ) ≤ 10) →
        updateVideoTime 10 3 11 false false = 3) ∧
      (((0 : ℚ) ≤ 11 ∧ (11 : ℚ) ≤ 10) → (false || false) = true →
        updateVideoTime 10 3 11 false false = 11) ∧
      (updateVideoTime 10 3 11 false false = 3 ∨
        updateVideoTime 10 3 11 false false = 11)) :=
  ⟨by norm_num, updateVideoTime_range_behavior 10 3 11 false false (by norm_num)⟩

/-- C9: adding an annotation through the chat handler re-sorts the
message's annotation array, so the result is always ascending in
timestamp; deleting an annotation filters the array, which preserves an
ascending order.  Hence the ordering-by-timestamp invariant holds after
every add or delete. -/
theorem annotations_sorted_after_add_and_delete (msgs : List Message)
    (messageId annotationId : String) (a : Annotation) :
    (∀ l, handleAddAnnotation msgs messageId a = some l →
      l.Pairwise (fun x y => x.timestamp ≤ y.timestamp)) ∧
    (∀ m l, msgs.find? (fun m2 => m2.id = messageId) = some m →
      (m.annotations.getD []).Pairwise (fun x y => x.timestamp ≤ y.timestamp) →
      handleDeleteAnnotation msgs messageId annotationId = some l →
      l.Pairwise (fun x y => x.timestamp ≤ y.timestamp)) := by
  constructor
  · intro l hl
    unfold handleAddAnnotation at hl
    cases hfind : msgs.find? (fun m2 => m2.id = messageId) with
    | none => rw [hfind] at hl; exact absurd hl (by simp)
    | some m =>
      rw [hfind] at hl
      have hl2 : l = (m.annotations.getD [] ++ [a]).mergeSort
          (fun x y => decide (x.timestamp ≤ y.timestamp)) := by
        simpa using hl.symm
      subst hl2
      have hs := @List.sorted_mergeSort _
        (fun x y : Annotation => decide (x.timestamp ≤ y.timestamp))
        (fun x y z hxy hyz => by
          simp only [decide_eq_true_eq] at *
          exact le_trans hxy hyz)
        (fun x y => by
          simp only [Bool.or_eq_true, decide_eq_true_eq]
          exact le_total x.timestamp y.timestamp)
        (m.annotations.getD [] ++ [a])
      exact hs.imp (by simp)
  · intro m l hfind hsorted hl
    unfold handleDeleteAnnotation at hl
    rw [hfind] at hl
    have hl2 : l = (m.annotations.getD []).filter
        (fun ann => ann.id ≠ annotationId) := by
      simpa using hl.symm
    subst hl2
    exact hsorted.filter _

/-- C9 witness: adding a timestamp-2 annotation to a message holding
annotations at timestamps 1 and 3 yields a sorted array, and deleting
from the sorted array keeps it sorted. -/
theorem annotations_sorted_after_add_and_deleteW :
    ((msgEx.annotations.getD [] ++ [annT3]).mergeSort
        (fun x y => decide (x.timestamp ≤ y.timestamp))).Pairwise
      (fun x y => x.timestamp ≤ y.timestamp) ∧
    ((msgEx.annotations.getD []).filter
        (fun ann => ann.id ≠ "t1")).Pairwise
      (fun x y => x.timestamp ≤ y.timestamp) :=
  ⟨(annotations_sorted_after_add_and_delete [msgEx] "m1" "t1" annT3).1 _ rfl,
    (annotations_sorted_after_add_and_delete [msgEx] "m1" "t1" annT3).2 msgEx _
      rfl (by simp [msgEx, annT1, annT2]) rfl⟩

/-- C4 counterexample: the claimed default display duration is the full
video length, but the source floors it.  On a 42.5-second video,
entering annotation mode and saving at playback time 0 yields
endTime 42 (the floored default), not min(0 + 42.5, 42.5) = 42.5. -/
theorem saveAnnotation_floor_counterexample :
    ( saveAnnotation "a1" (enterAnnotationMode
        { baseState with duration := 85 / 2, currentTime := 0 })).endTime
      = some 42 ∧
    (42 : ℚ) ≠ min ((0 : ℚ) + 85 / 2) (85 / 2) := by
  have hfl : (⌊(85 / 2 : ℚ)⌋ : ℤ) = 42 := by
    norm_num [Int.floor_eq_iff]
  constructor
  · simp [ saveAnnotation, enterAnnotationMode, baseState, jsOrQ, jsOrOptQ, hfl]
    norm_num
  · norm_num

/-- C4 amended: the timestamp and startTime of a saved annotation both
equal the current playback time, and with the default configuration —
which `enterAnnotationMode` sets to `Math.floor(duration)`, not the
exact video length — the endTime is
`min(currentTime + floor(duration), duration)`; on whole-second videos
such as the 42-second example this coincides with the claimed full-length
default. -/
theorem saveAnnotation_default_spec (t : AnnotatorState) (newId : String)
    (hdur : 1 ≤ t.duration)
    (hcfg : t.annotationDuration = some ((⌊t.duration⌋ : ℤ) : ℚ)) :
    (enterAnnotationMode t).annotationDuration = some ((⌊t.duration⌋ : ℤ) : ℚ) ∧
    ( saveAnnotation newId t).timestamp = t.currentTime ∧
    ( saveAnnotation newId t).startTime = some t.currentTime ∧
    ( saveAnnotation newId t).endTime
      = some (min (t.currentTime + ((⌊t.duration⌋ : ℤ) : ℚ)) t.duration) := by
  have hne : t.duration ≠ 0 := by
    intro h
    rw [h] at hdur
    norm_num at hdur
  have hfl : (1 : ℤ) ≤ ⌊t.duration⌋ := by
    rw [Int.le_floor]
    exact_mod_cast hdur
  have hflne : ((⌊t.duration⌋ : ℤ) : ℚ) ≠ 0 := by
    intro h
    rw [show ((0 : ℚ)) = ((0 : ℤ) : ℚ) from rfl] at h
    have := Int.cast_injective h
    omega
  refine ⟨by simp [enterAnnotationMode, hne], rfl, rfl, ?_⟩
  simp [ saveAnnotation, jsOrQ, jsOrOptQ, hcfg, hne, hflne]

/-- C4 amended witness: saving at playback time 30 of the 42-second video
with the default configuration yields endTime min(30 + 42, 42) = 42. -/
theorem saveAnnotation_default_specW :
    ((1 : ℚ) ≤ stateC4.duration ∧
        stateC4.annotationDuration = some ((⌊stateC4.duration⌋ : ℤ) : ℚ)) ∧
      ((enterAnnotationMode stateC4).annotationDuration
          = some ((⌊stateC4.duration⌋ : ℤ) : ℚ) ∧
        ( saveAnnotation "a1" stateC4).timestamp = stateC4.currentTime ∧
        ( saveAnnotation "a1" stateC4).startTime = some stateC4.currentTime ∧
        ( saveAnnotation "a1" stateC4).endTime
          = some (min (stateC4.currentTime + ((⌊stateC4.duration⌋ : ℤ) : ℚ))
              stateC4.duration)) :=
  ⟨⟨by norm_num [stateC4, baseState],
      by norm_num [stateC4, baseState, Int.floor_eq_iff]⟩,
    saveAnnotation_default_spec stateC4 "a1"
      (by norm_num [stateC4, baseState])
      (by norm_num [stateC4, baseState, Int.floor_eq_iff])⟩

/-- C5 counterexample: the claim keeps a moved-to point only when its
distance from the last recorded point strictly exceeds 2 px, but moving
from (0,0) to (2,0) — distance exactly 2, not exceeding 2 — appends the
point. -/
theorem penMove_threshold_counterexample :
    (handlePointerMove ⟨2, 0⟩ statePen0).currentDrawings
      = [{ penOnePoint with points := [⟨0, 0⟩, ⟨2, 0⟩] }] ∧
    ¬ (4 : ℚ) < distSq ⟨0, 0⟩ ⟨2, 0⟩ := by
  have h4 : ¬ distSq ⟨0, 0⟩ ⟨2, 0⟩ < 4 := by norm_num [distSq]
  constructor
  · simp [handlePointerMove, statePen0, penOnePoint, baseState, h4]
  · norm_num [distSq]

/-- C5 amended: during a freehand pen stroke, a pointer-move point is
appended to the active pen drawing iff its Euclidean distance from the
last recorded point is at least 2 px (squared distance ≥ 4); strictly
closer points are dropped.  For the input sequence [(0,0),(1,0),(5,0)]
the point (1,0) is dropped (distance 1) and (5,0) is appended after
(0,0). -/
theorem penMove_decimation (s : AnnotatorState) (p : Point) (last : Drawing)
    (lp : Point)
    (hA : s.isAnnotating = true) (ht : s.activeTool = DrawingTool.pen)
    (hd : s.isDrawing = true)
    (hlast : s.currentDrawings.getLast? = some last)
    (htool : last.tool = DrawingTool.pen)
    (hlp : last.points.getLast? = some lp) :
    (4 ≤ distSq lp p →
      (handlePointerMove p s).currentDrawings
        = s.currentDrawings.dropLast
            ++ [{ last with points := last.points ++ [p] }]) ∧
    (distSq lp p < 4 →
      (handlePointerMove p s).currentDrawings = s.currentDrawings) ∧
    (handlePointerMove p s).currentPoint = some p ∧
    (handlePointerMove ⟨5, 0⟩ (handlePointerMove ⟨1, 0⟩ statePen0)).currentDrawings
      = [{ penOnePoint with points := [⟨0, 0⟩, ⟨5, 0⟩] }] := by
  have hmove : (handlePointerMove p s).currentDrawings
      = if distSq lp p < 4 then s.currentDrawings
        else s.currentDrawings.dropLast
            ++ [{ last with points := last.points ++ [p] }] := by
    simp [handlePointerMove, hA, ht, hd, hlast, htool, hlp]
  refine ⟨?_, ?_, ?_, ?_⟩
  · intro h4
    rw [hmove, if_neg (not_lt.mpr h4)]
  · intro hlt
    rw [hmove, if_pos hlt]
  · simp [handlePointerMove, hA, ht, hd]
  · have hdrop : distSq (⟨0, 0⟩ : Point) ⟨1, 0⟩ < 4 := by norm_num [distSq]
    have hkeep : ¬ distSq (⟨0, 0⟩ : Point) ⟨5, 0⟩ < 4 := by norm_num [distSq]
    have h1 : handlePointerMove ⟨1, 0⟩ statePen0
        = { statePen0 with currentPoint := some ⟨1, 0⟩ } := by
      simp [handlePointerMove, statePen0, penOnePoint, baseState, hdrop]
    rw [h1]
    simp [handlePointerMove, statePen0, penOnePoint, baseState, hkeep]

/-- C5 amended witness: from the one-point stroke at (0,0), the move to
(2,0) (squared distance 4) is appended, and the example sequence ends
with points [(0,0),(5,0)]. -/
theorem penMove_decimationW :
    (statePen0.isAnnotating = true ∧
        statePen0.currentDrawings.getLast? = some penOnePoint ∧
        penOnePoint.points.getLast? = some ⟨0, 0⟩) ∧
      (((4 : ℚ) ≤ distSq ⟨0, 0⟩ ⟨2, 0⟩ →
        (handlePointerMove ⟨2, 0⟩ statePen0).currentDrawings
          = statePen0.currentDrawings.dropLast
              ++ [{ penOnePoint with points := penOnePoint.points ++ [⟨2, 0⟩] }]) ∧
      (distSq ⟨0, 0⟩ ⟨2, 0⟩ < 4 →
        (handlePointerMove ⟨2, 0⟩ statePen0).currentDrawings
          = statePen0.currentDrawings) ∧
      (handlePointerMove ⟨2, 0⟩ statePen0).currentPoint = some ⟨2, 0⟩ ∧
      (handlePointerMove ⟨5, 0⟩ (handlePointerMove ⟨1, 0⟩ statePen0)).currentDrawings
        = [{ penOnePoint with points := [⟨0, 0⟩, ⟨5, 0⟩] }]) :=
  ⟨⟨rfl, by decide, by decide⟩,
    penMove_decimation statePen0 ⟨2, 0⟩ penOnePoint ⟨0, 0⟩
      rfl rfl rfl (by decide) (by decide) (by decide)⟩

/-- C7 counterexample: the dropped degenerate stroke does become durable
— after a pointer-down/pointer-up with no movement, the one-point pen
stroke stays in the transient drawing set, and saving the annotation
includes it in the saved drawings. -/
theorem penStroke_degenerate_durable_counterexample :
    ( saveAnnotation "a1" (handlePointerUp "u1" (handlePointerDown "p1" ⟨0, 0⟩
        (enterAnnotationMode baseState)))).drawings = [penOnePoint] ∧
    penOnePoint.points.length = 1 := by
  have hd42 : (if (42 : ℚ) = 0 then (10 : ℚ) else ((⌊(42 : ℚ)⌋ : ℤ) : ℚ)) = 42 := by
    rw [if_neg (by norm_num : ¬ (42 : ℚ) = 0)]
    norm_num
  have h0 : enterAnnotationMode baseState
      = { baseState with
          isAnnotating := true
          annotationDuration := some 42
          drawingHistory := [[]]
          historyIndex := 0 } := by
    simp only [enterAnnotationMode, baseState, hd42]
  have h1 : handlePointerDown "p1" ⟨0, 0⟩
        { baseState with
          isAnnotating := true
          annotationDuration := some 42
          drawingHistory := [[]]
          historyIndex := 0 }
      = { baseState with
          isAnnotating := true
          annotationDuration := some 42
          drawingHistory := [[]]
          historyIndex := 0
          isDrawing := true
          startPoint := some ⟨0, 0⟩
          currentPoint := some ⟨0, 0⟩
          currentDrawings := [penOnePoint] } := by
    simp [handlePointerDown, baseState, penOnePoint]
  have h2 : handlePointerUp "u1"
        { baseState with
          isAnnotating := true
          annotationDuration := some 42
          drawingHistory := [[]]
          historyIndex := 0
          isDrawing := true
          startPoint := some ⟨0, 0⟩
          currentPoint := some ⟨0, 0⟩
          currentDrawings := [penOnePoint] }
      = { baseState with
          isAnnotating := true
          annotationDuration := some 42
          drawingHistory := [[]]
          historyIndex := 0
          isDrawing := false
          startPoint := none
          currentPoint := none
          currentDrawings := [penOnePoint] } := by
    simp [handlePointerUp, baseState, penOnePoint]
  rw [h0, h1, h2]
  exact ⟨rfl, rfl⟩

/-- C7 amended: at the pointer-up completing a freehand stroke, a new
history snapshot is saved iff the active pen drawing has at least 2
points — a degenerate stroke is not committed at that moment (though it
survives in the transient drawing set, see the counterexample). -/
theorem penStrokeCommit_iff (s : AnnotatorState) (newId : String)
    (last : Drawing)
    (hA : s.isAnnotating = true) (ht : s.activeTool = DrawingTool.pen)
    (hd : s.isDrawing = true)
    (hlast : s.currentDrawings.getLast? = some last) :
    ((last.tool = DrawingTool.pen ∧ 1 < last.points.length) →
      (handlePointerUp newId s).drawingHistory
          = (saveToHistory s.currentDrawings s).drawingHistory ∧
        (handlePointerUp newId s).historyIndex = s.historyIndex + 1) ∧
    (¬ (last.tool = DrawingTool.pen ∧ 1 < last.points.length) →
      (handlePointerUp newId s).drawingHistory = s.drawingHistory ∧
        (handlePointerUp newId s).historyIndex = s.historyIndex) ∧
    (handlePointerUp newId s).isDrawing = false := by
  by_cases hcond : last.tool = DrawingTool.pen ∧ 1 < last.points.length
  · have hup : handlePointerUp newId s
        = { saveToHistory s.currentDrawings s with
            isDrawing := false
            startPoint := none
            currentPoint := none } := by
      simp [handlePointerUp, hA, ht, hd, hlast, hcond]
    refine ⟨fun _ => ?_, fun hc => absurd hcond hc, ?_⟩
    · rw [hup]
      exact ⟨rfl, by simp [saveToHistory]⟩
    · rw [hup]
  · have hup : handlePointerUp newId s
        = { s with
            isDrawing := false
            startPoint := none
            currentPoint := none } := by
      simp [handlePointerUp, hA, ht, hd, hlast, hcond]
    refine ⟨fun hc => absurd hc hcond, fun _ => ?_, ?_⟩
    · rw [hup]
      exact ⟨rfl, rfl⟩
    · rw [hup]

/-- C7 amended witness: the two-point stroke is committed on pointer-up,
advancing the index. -/
theorem penStrokeCommit_iffW :
    (statePenUp.isAnnotating = true ∧
        statePenUp.currentDrawings.getLast? = some penStrokeA) ∧
      (((penStrokeA.tool = DrawingTool.pen ∧ 1 < penStrokeA.points.length) →
        (handlePointerUp "u1" statePenUp).drawingHistory
            = (saveToHistory statePenUp.currentDrawings statePenUp).drawingHistory ∧
          (handlePointerUp "u1" statePenUp).historyIndex
            = statePenUp.historyIndex + 1) ∧
      (¬ (penStrokeA.tool = DrawingTool.pen ∧ 1 < penStrokeA.points.length) →
        (handlePointerUp "u1" statePenUp).drawingHistory
            = statePenUp.drawingHistory ∧
          (handlePointerUp "u1" statePenUp).historyIndex
            = statePenUp.historyIndex) ∧
      (handlePointerUp "u1" statePenUp).isDrawing = false) :=
  ⟨⟨rfl, by decide⟩,
    penStrokeCommit_iff statePenUp "u1" penStrokeA
      rfl rfl rfl (by decide)⟩

lemma normalizeDiff_mem (d : ℝ) (h1 : -(2 * Real.pi) < d)
    (h2 : d < 2 * Real.pi) :
    -Real.pi < normalizeDiff d ∧ normalizeDiff d ≤ Real.pi := by
  have hpi := Real.pi_pos
  unfold normalizeDiff
  split_ifs with h3 h4 <;> constructor <;> linarith

lemma signedDiff_mem (p1 v p2 : Point) :
    -Real.pi < signedDiff p1 v p2 ∧ signedDiff p1 v p2 ≤ Real.pi := by
  obtain ⟨h1a, h1b⟩ :=
    Complex.arg_mem_Ioc ⟨(p1.x : ℝ) - (v.x : ℝ), (p1.y : ℝ) - (v.y : ℝ)⟩
  obtain ⟨h2a, h2b⟩ :=
    Complex.arg_mem_Ioc ⟨(p2.x : ℝ) - (v.x : ℝ), (p2.y : ℝ) - (v.y : ℝ)⟩
  exact normalizeDiff_mem _ (by simp only [signedDiff, atan2]; linarith)
    (by simp only [signedDiff, atan2]; linarith)

lemma degNorm_mem (p1 v p2 : Point) :
    -180 < signedDiff p1 v p2 * 180 / Real.pi ∧
      signedDiff p1 v p2 * 180 / Real.pi ≤ 180 := by
  have hpi := Real.pi_pos
  obtain ⟨ha, hb⟩ := signedDiff_mem p1 v p2
  constructor
  · rw [lt_div_iff₀ hpi]
    nlinarith
  · rw [div_le_iff₀ hpi]
    nlinarith

lemma atan2_zero_ten : atan2 0 10 = 0 := by
  unfold atan2
  rw [show (⟨10, 0⟩ : ℂ) = ((10 : ℝ) : ℂ) from by simp [Complex.ext_iff]]
  exact Complex.arg_ofReal_of_nonneg (by norm_num)

lemma atan2_ten_zero : atan2 10 0 = Real.pi / 2 := by
  unfold atan2
  rw [show (⟨0, 10⟩ : ℂ) = ((10 : ℝ) : ℂ) * Complex.I from by
    simp [Complex.ext_iff]]
  rw [Complex.arg_real_mul _ (by norm_num : (0 : ℝ) < 10), Complex.arg_I]

lemma angleLabel_right_angle : angleLabel ⟨10, 0⟩ ⟨0, 0⟩ ⟨0, 10⟩ = 90 := by
  have hpi := Real.pi_pos
  have hd : signedDiff ⟨10, 0⟩ ⟨0, 0⟩ ⟨0, 10⟩ = Real.pi / 2 := by
    have h1 : signedDiff ⟨10, 0⟩ ⟨0, 0⟩ ⟨0, 10⟩
        = normalizeDiff (atan2 10 0 - atan2 0 10) := by
      simp only [signedDiff]
      norm_num
    rw [h1, atan2_ten_zero, atan2_zero_ten, sub_zero]
    unfold normalizeDiff
    rw [if_neg (by linarith), if_neg (by linarith)]
  have hdeg : angleDeg ⟨10, 0⟩ ⟨0, 0⟩ ⟨0, 10⟩ = 90 := by
    unfold angleDeg
    rw [hd, abs_of_nonneg (by positivity)]
    field_simp
    ring
  have hfl : (⌊(90 : ℝ) * 10 + 1 / 2⌋ : ℤ) = 900 := by
    norm_num [Int.floor_eq_iff]
  unfold angleLabel toFixed1
  rw [hdeg, hfl]
  norm_num

/-- C6: placing the third angle point resets the accumulator to empty
and appends to the drawing set (committing it to history) an angle
Drawing whose label value is the absolute value, in degrees rounded to
one decimal place, of the signed angle between the two arms at the
vertex; the signed angle is normalized into (−180°, 180°], and arms at
0° and 90° from the vertex report 90.0 degrees. -/
theorem angle_third_point (s : AnnotatorState) (newId : String)
    (p p1 v : Point)
    (hA : s.isAnnotating = true) (ht : s.activeTool = DrawingTool.angle)
    (hpts : s.anglePoints = [p1, v]) :
    (handlePointerDown newId p s).anglePoints = [] ∧
    (handlePointerDown newId p s).currentDrawings
      = s.currentDrawings ++
          [{ id := newId, tool := DrawingTool.angle, points := [p1, v, p],
             color := s.selectedColor, timestamp := s.currentTime,
             text := some (angleLabel p1 v p) }] ∧
    (handlePointerDown newId p s).drawingHistory
      = (saveToHistory (s.currentDrawings ++
          [{ id := newId, tool := DrawingTool.angle, points := [p1, v, p],
             color := s.selectedColor, timestamp := s.currentTime,
             text := some (angleLabel p1 v p) }]) s).drawingHistory ∧
    (handlePointerDown newId p s).historyIndex = s.historyIndex + 1 ∧
    (-180 < signedDiff p1 v p * 180 / Real.pi ∧
      signedDiff p1 v p * 180 / Real.pi ≤ 180) ∧
    angleDeg p1 v p = |signedDiff p1 v p * 180 / Real.pi| ∧
    angleLabel p1 v p = toFixed1 (angleDeg p1 v p) ∧
    angleLabel ⟨10, 0⟩ ⟨0, 0⟩ ⟨0, 10⟩ = 90 := by
  have hdown : handlePointerDown newId p s
      = { saveToHistory (s.currentDrawings ++
            [{ id := newId, tool := DrawingTool.angle, points := [p1, v, p],
               color := s.selectedColor, timestamp := s.currentTime,
               text := some (angleLabel p1 v p) }]) s with
          currentDrawings := s.currentDrawings ++
            [{ id := newId, tool := DrawingTool.angle, points := [p1, v, p],
               color := s.selectedColor, timestamp := s.currentTime,
               text := some (angleLabel p1 v p) }]
          anglePoints := [] } := by
    simp [handlePointerDown, hA, ht, hpts, angleLabel, angleDeg, signedDiff]
  refine ⟨by rw [hdown], by rw [hdown], by rw [hdown], ?_,
    degNorm_mem p1 v p, rfl, rfl, angleLabel_right_angle⟩
  rw [hdown]
  simp [saveToHistory]

/-- C6 witness: the concrete third click at (0,10) with accumulated
points [(10,0),(0,0)] produces the 90.0-degree angle drawing and resets
the accumulator. -/
theorem angle_third_pointW :
    (stateAngle.isAnnotating = true ∧
        stateAngle.activeTool = DrawingTool.angle ∧
        stateAngle.anglePoints = [⟨10, 0⟩, ⟨0, 0⟩]) ∧
      ((handlePointerDown "a1" ⟨0, 10⟩ stateAngle).anglePoints = [] ∧
      (handlePointerDown "a1" ⟨0, 10⟩ stateAngle).currentDrawings
        = stateAngle.currentDrawings ++
            [{ id := "a1", tool := DrawingTool.angle,
               points := [⟨10, 0⟩, ⟨0, 0⟩, ⟨0, 10⟩],
               color := stateAngle.selectedColor,
               timestamp := stateAngle.currentTime,
               text := some (angleLabel ⟨10, 0⟩ ⟨0, 0⟩ ⟨0, 10⟩) }] ∧
      (handlePointerDown "a1" ⟨0, 10⟩ stateAngle).drawingHistory
        = (saveToHistory (stateAngle.currentDrawings ++
            [{ id := "a1", tool := DrawingTool.angle,
               points := [⟨10, 0⟩, ⟨0, 0⟩, ⟨0, 10⟩],
               color := stateAngle.selectedColor,
               timestamp := stateAngle.currentTime,
               text := some (angleLabel ⟨10, 0⟩ ⟨0, 0⟩ ⟨0, 10⟩) }])
            stateAngle).drawingHistory ∧
      (handlePointerDown "a1" ⟨0, 10⟩ stateAngle).historyIndex
        = stateAngle.historyIndex + 1 ∧
      (-180 < signedDiff ⟨10, 0⟩ ⟨0, 0⟩ ⟨0, 10⟩ * 180 / Real.pi ∧
        signedDiff ⟨10, 0⟩ ⟨0, 0⟩ ⟨0, 10⟩ * 180 / Real.pi ≤ 180) ∧
      angleDeg ⟨10, 0⟩ ⟨0, 0⟩ ⟨0, 10⟩
        = |signedDiff ⟨10, 0⟩ ⟨0, 0⟩ ⟨0, 10⟩ * 180 / Real.pi| ∧
      angleLabel ⟨10, 0⟩ ⟨0, 0⟩ ⟨0, 10⟩
        = toFixed1 (angleDeg ⟨10, 0⟩ ⟨0, 0⟩ ⟨0, 10⟩) ∧
      angleLabel ⟨10, 0⟩ ⟨0, 0⟩ ⟨0, 10⟩ = 90) :=
  ⟨⟨rfl, rfl, by decide⟩,
    angle_third_point stateAngle "a1" ⟨0, 10⟩ ⟨10, 0⟩ ⟨0, 0⟩
      rfl rfl (by decide)⟩
